import Mathlib

/-! Image file server: round-robin and random handlers.

A shallow embedding of `main.go`.  The server state is the Go `Server` struct.
Every call a handler makes on its collaborators (the logger, `os.Open`,
`http.Error`, the response header map, `io.Copy`, the deferred `Close`) is
recorded, in program order, as an `Event`; a handler call returns the new
server state, the index it selected, the events it produced and whether it
returned or panicked.

Machine integers are natural numbers with explicit reduction modulo `2^64`.
-/

namespace Fileserver

/-- The modulus of Go's `uint64`. -/
def uint64Mod : Nat := 2 ^ 64

/-- The largest length a Go slice can have (`int` is 64 bits wide). -/
def maxInt : Nat := 2 ^ 63 - 1

/-- The struct `Server`: the counter `imageIdx` (a `uint64`), the image list and
the delay (a `time.Duration`, nanoseconds). -/
structure Server where
  imageIdx : Nat
  images : List String
  delay : Int
deriving DecidableEq

/-- `MakeServer`: the zero value of `Server`. -/
def MakeServer : Server :=
  { imageIdx := 0, images := [], delay := 0 }

/-- `WithImages`: stores the image list. -/
def Server.WithImages (s : Server) (images : List String) : Server :=
  { s with images := images }

/-- A file as `os.Open` and `io.Copy` see it: its bytes, and, when
`readErr = some (k, e)`, a failure of the read with error `e` after `k` bytes. -/
structure File where
  content : List Nat
  readErr : Option (Nat × String)
deriving DecidableEq

/-- What surrounds a request.  The file system: `os.Open path` yields a file or
fails (`none`).  The connection behind the response writer: when
`writeErr = some (j, e)` it accepts `j` bytes of a copy and then fails with
error `e` (a client that goes away). -/
structure World where
  openFile : String → Option File
  writeErr : Option (Nat × String)

/-- The calls a handler makes on its collaborators, in program order.
A file handle is `some path` when valid and `none` for the nil handle that a
failed `os.Open` returns. -/
inductive Event where
  | log (msg : String)
  | sleep
  | openFile (path : String) (ok : Bool)
  | httpError (msg : String) (code : Nat)
  | setHeader (key : String) (value : String)
  | copy (handle : Option String) (bytes : List Nat)
  | close (handle : Option String)
deriving DecidableEq

/-- How a handler call ends. -/
inductive Outcome where
  | returned
  | panicked (msg : String)
deriving DecidableEq

/-- What one handler call does: the server afterwards, the value of the local
`idx` once selected, the events produced and the way the call ended. -/
structure Result where
  server : Server
  idx : Option Nat
  trace : List Event
  outcome : Outcome
deriving DecidableEq

/-- The bytes of a file that can be read before its read error, if it has one. -/
def File.readable (f : File) : List Nat :=
  match f.readErr with
  | none => f.content
  | some (k, _) => f.content.take k

/-- `io.Copy(w, img)`: the bytes written to the response, their count `n`, and
the error returned, if any.  Copying from the nil handle writes nothing and
fails with `os.ErrInvalid`.  Otherwise the bytes read are written until the
writer fails; a write error ends the copy before a later read error is met. -/
def ioCopy (writeErr : Option (Nat × String)) (img : Option File) :
    List Nat × Nat × Option String :=
  match img with
  | none => ([], 0, some "invalid argument")
  | some f =>
    match writeErr with
    | none => (f.readable, f.readable.length, f.readErr.map Prod.snd)
    | some (j, e) =>
      if j < f.readable.length then
        (f.readable.take j, (f.readable.take j).length, some e)
      else
        (f.readable, f.readable.length, f.readErr.map Prod.snd)

/-- `strconv.FormatInt(n, 10)` for a non-negative `n`. -/
def FormatInt (n : Nat) : String := Nat.repr n

/-- The handler returned by `handleRandom`, run on one request.  `draw` is the
value `rand.Intn(len(s.images))` returns; `rand.Intn` panics when its argument
is not positive. -/
def handleRandom (w : World) (s : Server) (draw : Nat) : Result :=
  if s.images.length = 0 then
    ⟨s, none, [], .panicked "invalid argument to Intn"⟩
  else
    let idx := draw
    match s.images[idx]? with
    | none => ⟨s, some idx, [], .panicked "index out of range"⟩
    | some path =>
      let img := w.openFile path
      let t1 := [Event.log ("Serving " ++ path), Event.openFile path img.isSome]
      let t2 := if img.isNone then [Event.httpError "Failed to open image" 500] else []
      let handle := img.map (fun _ => path)
      let t3 := [Event.setHeader "Content-Type" "image/jpeg"]
      let c := ioCopy w.writeErr img
      let t4 := [Event.copy handle c.1]
      let t5 := match c.2.2 with
        | some e => [Event.log ("Error serving " ++ path ++ ": " ++ e)]
        | none => []
      let t6 := [Event.setHeader "Content-length" (FormatInt c.2.1)]
      ⟨s, some idx, t1 ++ t2 ++ t3 ++ t4 ++ t5 ++ t6 ++ [Event.close handle], .returned⟩

/-- The handler returned by `handleOrdered`, run on one request.
`atomic.AddUint64` returns the incremented counter; `uint64(len(s.images))` is
the length reduced modulo `2^64`; the remainder by zero panics.  The sleep is
the fixed `time.Millisecond` of line 76; `s.delay` is read by neither handler. -/
def handleOrdered (w : World) (s : Server) : Result :=
  let idx := (s.imageIdx + 1) % uint64Mod
  let s1 : Server := { s with imageIdx := idx }
  let n := s.images.length % uint64Mod
  if n = 0 then
    ⟨s1, none, [], .panicked "integer divide by zero"⟩
  else
    let idx := idx % n
    match s.images[idx]? with
    | none => ⟨s1, some idx, [], .panicked "index out of range"⟩
    | some path =>
      let img := w.openFile path
      let t1 := [Event.log ("Serving " ++ path), Event.sleep, Event.openFile path img.isSome]
      let t2 := if img.isNone then [Event.httpError "Failed to open image" 500] else []
      let handle := img.map (fun _ => path)
      let t3 := [Event.setHeader "Content-Type" "image/jpeg"]
      let c := ioCopy w.writeErr img
      let t4 := [Event.copy handle c.1]
      let t5 := match c.2.2 with
        | some e => [Event.log ("Error serving " ++ path ++ ": " ++ e)]
        | none => []
      let t6 := [Event.setHeader "Content-length" (FormatInt c.2.1)]
      ⟨s1, some idx, t1 ++ t2 ++ t3 ++ t4 ++ t5 ++ t6 ++ [Event.close handle], .returned⟩

/-- The results of `k` consecutive calls of the ordered handler, first call
first.  A panic is recovered by the HTTP runtime, so the server state carries
over to the next call in every case. -/
def orderedCalls (w : World) : Nat → Server → List Result
  | 0, _ => []
  | k + 1, s => handleOrdered w s :: orderedCalls w k (handleOrdered w s).server

/-- The paths handed to `os.Open` in a trace. -/
def openedPaths : List Event → List String
  | [] => []
  | Event.openFile p _ :: tr => p :: openedPaths tr
  | _ :: tr => openedPaths tr

/-- A request, by the endpoint it reaches: `/random/`, with the value the random
source draws for it, or `/ordered/`. -/
inductive Request where
  | random (draw : Nat)
  | ordered
deriving DecidableEq

/-- `MakeRouter`: the handler registered for the endpoint, run on the request. -/
def MakeRouter (w : World) (s : Server) : Request → Result
  | Request.random draw => handleRandom w s draw
  | Request.ordered => handleOrdered w s

/-- Number of requests to the ordered endpoint in a sequence of requests. -/
def countOrdered : List Request → Nat
  | [] => 0
  | Request.ordered :: qs => countOrdered qs + 1
  | Request.random _ :: qs => countOrdered qs

/-- The indices the ordered handler selects while a sequence of requests, to
either endpoint, is served one after the other. -/
def orderedIndices (w : World) : List Request → Server → List (Option Nat)
  | [], _ => []
  | Request.ordered :: qs, s =>
    (handleOrdered w s).idx :: orderedIndices w qs (handleOrdered w s).server
  | Request.random draw :: qs, s =>
    orderedIndices w qs (handleRandom w s draw).server

/-- The bytes handed to the response body: what `io.Copy` wrote, and the line
that `http.Error` prints. -/
def responseBody : List Event → List Nat
  | [] => []
  | Event.copy _ bytes :: tr => bytes ++ responseBody tr
  | Event.httpError msg _ :: tr => (msg ++ "\n").toList.map Char.toNat ++ responseBody tr
  | _ :: tr => responseBody tr

/-- All header assignments of a trace, in order. -/
def headersSet : List Event → List (String × String)
  | [] => []
  | Event.setHeader k v :: tr => (k, v) :: headersSet tr
  | _ :: tr => headersSet tr

/-- The events of a trace that precede its call of `io.Copy`. -/
def beforeCopy : List Event → List Event
  | [] => []
  | Event.copy _ _ :: _ => []
  | e :: tr => e :: beforeCopy tr

/-- The events of a trace that follow its call of `io.Copy`. -/
def afterCopy : List Event → List Event
  | [] => []
  | Event.copy _ _ :: tr => tr
  | _ :: tr => afterCopy tr

/-- The table of open file handles, run over a trace: a successful open adds
the handle, a close of a valid handle removes it.  The result is `none` when a
handle is closed that is not open (never opened, or closed before), and
otherwise the handles still open at the end. -/
def handleTable : List Event → List String → Option (List String)
  | [], held => some held
  | Event.openFile p true :: tr, held => handleTable tr (p :: held)
  | Event.close (some p) :: tr, held =>
    if p ∈ held then handleTable tr (held.erase p) else none
  | _ :: tr, held => handleTable tr held

/-- A request in flight in the ordered handler, seen at its shared-memory
steps: before line 73, after `atomic.AddUint64` returned `v`, after line 74
selected `idx`, or stopped by the remainder by zero. -/
inductive Thread where
  | start
  | added (v : Nat)
  | selected (v : Nat) (idx : Nat)
  | panicked (v : Nat)
deriving DecidableEq

/-- One step of a request: the atomic increment (line 73), then the reduction
modulo the length (line 74).  A request past line 74 no longer touches the
counter. -/
def stepThread (s : Server) : Thread → Server × Thread
  | Thread.start =>
    let v := (s.imageIdx + 1) % uint64Mod
    ({ s with imageIdx := v }, Thread.added v)
  | Thread.added v =>
    let n := s.images.length % uint64Mod
    if n = 0 then (s, Thread.panicked v) else (s, Thread.selected v (v % n))
  | t => (s, t)

/-- Concurrent execution as interleaving: each entry of the schedule names the
request that takes its next step. -/
def runSchedule : List Nat → Server × List Thread → Server × List Thread
  | [], st => st
  | t :: sched, (s, ths) =>
    match ths[t]? with
    | none => runSchedule sched (s, ths)
    | some th => runSchedule sched ((stepThread s th).1, ths.set t (stepThread s th).2)

/-- The counter value a request obtained from `atomic.AddUint64`, if it has. -/
def Thread.ticket : Thread → Option Nat
  | Thread.start => none
  | Thread.added v => some v
  | Thread.selected v _ => some v
  | Thread.panicked v => some v

/-- The index a request selected, if it has. -/
def Thread.index : Thread → Option Nat
  | Thread.selected _ idx => some idx
  | _ => none

/-- What every interleaving preserves: the image list, the number of requests,
the counter as the start value plus the number of increments made, the counter
values obtained as the run that follows the start value, and each selected
index as the residue of the value its request obtained. -/
structure SlotInv (c : Nat) (imgs : List String) (st : Server × List Thread) : Prop where
  images : st.1.images = imgs
  len : st.2.length = imgs.length
  counter : st.1.imageIdx = c + (st.2.filterMap Thread.ticket).length
  perm : (st.2.filterMap Thread.ticket).Perm
    (List.range' (c + 1) (st.2.filterMap Thread.ticket).length)
  sel : ∀ v i, Thread.selected v i ∈ st.2 → i = v % imgs.length

/-! ## The ordered handler: counter and index -/

theorem handleOrdered_server (w : World) (s : Server) :
    (handleOrdered w s).server = { s with imageIdx := (s.imageIdx + 1) % uint64Mod } := by
  unfold handleOrdered
  simp only
  split
  · rfl
  · split <;> rfl

theorem length_mod_uint64 {n : Nat} (h : n ≤ maxInt) : n % uint64Mod = n := by
  apply Nat.mod_eq_of_lt
  unfold maxInt at h
  unfold uint64Mod
  omega

theorem handleOrdered_idx (w : World) (s : Server)
    (h1 : 1 ≤ s.images.length) (h2 : s.images.length ≤ maxInt) :
    (handleOrdered w s).idx = some ((s.imageIdx + 1) % uint64Mod % s.images.length) := by
  unfold handleOrdered
  simp only [length_mod_uint64 h2]
  split
  · omega
  · split <;> rfl

theorem handleOrdered_opened (w : World) (s : Server) (p : String)
    (h2 : s.images.length ≤ maxInt)
    (hp : s.images[(s.imageIdx + 1) % uint64Mod % s.images.length]? = some p) :
    openedPaths (handleOrdered w s).trace = [p] := by
  have h1 : s.images.length ≠ 0 := by
    intro h
    have : s.images = [] := List.length_eq_zero.mp h
    simp [this] at hp
  unfold handleOrdered
  simp only [length_mod_uint64 h2, h1, if_false, hp]
  generalize ioCopy w.writeErr (w.openFile p) = c
  obtain ⟨bytes, n, err⟩ := c
  cases hw : w.openFile p <;> cases err <;> simp [openedPaths]

theorem orderedCalls_length (w : World) : ∀ (k : Nat) (s : Server),
    (orderedCalls w k s).length = k
  | 0, _ => rfl
  | k + 1, s => by simp [orderedCalls, orderedCalls_length w k]

/-- The call number `j + 1` of a run is the handler applied to the server whose
counter has been advanced `j` times. -/
theorem orderedCalls_get (w : World) : ∀ (k : Nat) (s : Server) (j : Nat),
    s.imageIdx < uint64Mod → j < k →
    (orderedCalls w k s)[j]? =
      some (handleOrdered w { s with imageIdx := (s.imageIdx + j) % uint64Mod })
  | 0, _, _, _, hj => by omega
  | k + 1, s, 0, hs, _ => by
    simp [orderedCalls, Nat.mod_eq_of_lt hs]
  | k + 1, s, j + 1, hs, hj => by
    have hlt : (handleOrdered w s).server.imageIdx < uint64Mod := by
      rw [handleOrdered_server]
      exact Nat.mod_lt _ (by unfold uint64Mod; positivity)
    have ih := orderedCalls_get w k (handleOrdered w s).server j hlt (by omega)
    simp only [orderedCalls, List.getElem?_cons_succ, ih]
    rw [handleOrdered_server]
    simp only [Nat.mod_add_mod]
    have : s.imageIdx + 1 + j = s.imageIdx + (j + 1) := by omega
    rw [this]

theorem handleOrdered_images (w : World) (s : Server) :
    (handleOrdered w s).server.images = s.images := by
  rw [handleOrdered_server]

/-- While the counter stays below `2^64`, `k` consecutive calls select the
residues of the `k` counter values that follow the current one. -/
theorem orderedCalls_idx (w : World) : ∀ (k : Nat) (s : Server),
    1 ≤ s.images.length → s.images.length ≤ maxInt → s.imageIdx + k < uint64Mod →
    (orderedCalls w k s).map (fun r => r.idx) =
      (List.range' (s.imageIdx + 1) k).map (fun v => some (v % s.images.length))
  | 0, _, _, _, _ => rfl
  | k + 1, s, h1, h2, h3 => by
    have hc : (s.imageIdx + 1) % uint64Mod = s.imageIdx + 1 :=
      Nat.mod_eq_of_lt (by omega)
    have hs : (handleOrdered w s).server.imageIdx = s.imageIdx + 1 := by
      rw [handleOrdered_server]; exact hc
    have hi := handleOrdered_images w s
    have ih := orderedCalls_idx w k (handleOrdered w s).server
      (by rw [hi]; exact h1) (by rw [hi]; exact h2) (by rw [hs]; omega)
    simp only [orderedCalls, List.map_cons, ih, hs, hi, handleOrdered_idx w s h1 h2, hc,
      List.range'_succ]

/-- The index selected by call number `m` (counted from 1) of a run. -/
theorem orderedCalls_idx_at (w : World) (s : Server) (k m : Nat)
    (hs : s.imageIdx < uint64Mod) (h1 : 1 ≤ s.images.length)
    (h2 : s.images.length ≤ maxInt) (hm : 1 ≤ m) (hk : m ≤ k) :
    ((orderedCalls w k s)[m - 1]?).map (fun r => r.idx) =
      some (some ((s.imageIdx + m) % uint64Mod % s.images.length)) := by
  rw [orderedCalls_get w k s (m - 1) hs (by omega)]
  have h := handleOrdered_idx w
    { s with imageIdx := (s.imageIdx + (m - 1)) % uint64Mod } h1 h2
  have e : s.imageIdx + (m - 1) + 1 = s.imageIdx + m := by omega
  simp only [Nat.mod_add_mod, e] at h
  simp only [Option.map_some', h]

/-- Two numbers of a window of `n` consecutive numbers with the same residue
modulo `n` are equal. -/
theorem eq_of_mod_eq_of_window {a n x y : Nat} (hx : a ≤ x) (hx2 : x < a + n)
    (hy : a ≤ y) (hy2 : y < a + n) (h : x % n = y % n) : x = y := by
  have ex := Nat.div_add_mod x n
  have ey := Nat.div_add_mod y n
  rw [h] at ex
  rcases Nat.lt_trichotomy (x / n) (y / n) with hlt | heq | hgt
  · have : n * (x / n + 1) ≤ n * (y / n) := Nat.mul_le_mul_left n hlt
    rw [Nat.mul_add, Nat.mul_one] at this
    omega
  · rw [heq] at ex
    omega
  · have : n * (y / n + 1) ≤ n * (x / n) := Nat.mul_le_mul_left n hgt
    rw [Nat.mul_add, Nat.mul_one] at this
    omega

/-- The residues modulo `n` of `n` consecutive numbers are the numbers below
`n`, each once. -/
theorem window_mod_perm (a n : Nat) (hn : 0 < n) :
    ((List.range' a n).map (fun v => v % n)).Perm (List.range n) := by
  have hnd : ((List.range' a n).map (fun v => v % n)).Nodup := by
    apply List.Nodup.map_on
    · intro x hx y hy hxy
      rw [List.mem_range'_1] at hx hy
      exact eq_of_mod_eq_of_window hx.1 hx.2 hy.1 hy.2 hxy
    · exact List.nodup_range' a n
  have hsub : (List.range' a n).map (fun v => v % n) ⊆ List.range n := by
    intro x hx
    rw [List.mem_map] at hx
    obtain ⟨v, _, rfl⟩ := hx
    exact List.mem_range.mpr (Nat.mod_lt _ hn)
  exact (List.subperm_of_subset hnd hsub).perm_of_length_le (by simp)

theorem handleRandom_server (w : World) (s : Server) (draw : Nat) :
    (handleRandom w s draw).server = s := by
  unfold handleRandom
  simp only
  split
  · rfl
  · split <;> rfl

/-- A copy that meets neither a read error nor a write error writes the whole
file and returns no error. -/
theorem ioCopy_complete (writeErr : Option (Nat × String)) (f : File)
    (hr : f.readErr = none)
    (hw : ∀ j e, writeErr = some (j, e) → f.content.length ≤ j) :
    ioCopy writeErr (some f) = (f.content, f.content.length, none) := by
  have hrd : f.readable = f.content := by simp [File.readable, hr]
  unfold ioCopy
  cases writeErr with
  | none => simp [hrd, hr]
  | some je =>
    obtain ⟨j, e⟩ := je
    have := hw j e rfl
    simp only [hrd, hr, Option.map_none']
    rw [if_neg (by omega)]

theorem handleRandom_idx (w : World) (s : Server) (draw : Nat)
    (h1 : 1 ≤ s.images.length) :
    (handleRandom w s draw).idx = some draw := by
  have hne : s.images.length ≠ 0 := by omega
  unfold handleRandom
  simp only [hne, if_false]
  split <;> rfl

/-- The field `delay` is read by neither handler: changing it changes nothing
of what a request does. -/
theorem delay_not_read (w : World) (s : Server) (d : Int) (q : Request) :
    (MakeRouter w { s with delay := d } q).idx = (MakeRouter w s q).idx ∧
    (MakeRouter w { s with delay := d } q).trace = (MakeRouter w s q).trace ∧
    (MakeRouter w { s with delay := d } q).outcome = (MakeRouter w s q).outcome := by
  cases q with
  | random draw =>
    show (handleRandom w _ draw).idx = (handleRandom w s draw).idx ∧
      (handleRandom w _ draw).trace = (handleRandom w s draw).trace ∧
      (handleRandom w _ draw).outcome = (handleRandom w s draw).outcome
    by_cases h : s.images.length = 0
    · simp [handleRandom, h]
    · cases hp : s.images[draw]? <;> simp [handleRandom, h, hp]
  | ordered =>
    show (handleOrdered w _).idx = (handleOrdered w s).idx ∧
      (handleOrdered w _).trace = (handleOrdered w s).trace ∧
      (handleOrdered w _).outcome = (handleOrdered w s).outcome
    by_cases h : s.images.length % uint64Mod = 0
    · simp [handleOrdered, h]
    · cases hp : s.images[(s.imageIdx + 1) % uint64Mod % (s.images.length % uint64Mod)]? <;>
        simp [handleOrdered, h, hp]

/-- The events of an ordered call whose file opens and is copied in full. -/
theorem handleOrdered_trace_ok (w : World) (s : Server) (p : String) (f : File)
    (hn : s.images.length % uint64Mod ≠ 0)
    (hp : s.images[(s.imageIdx + 1) % uint64Mod % (s.images.length % uint64Mod)]? = some p)
    (hf : w.openFile p = some f) (hr : f.readErr = none)
    (hw : ∀ j e, w.writeErr = some (j, e) → f.content.length ≤ j) :
    (handleOrdered w s).trace =
      [Event.log ("Serving " ++ p), Event.sleep, Event.openFile p true,
       Event.setHeader "Content-Type" "image/jpeg",
       Event.copy (some p) f.content,
       Event.setHeader "Content-length" (FormatInt f.content.length),
       Event.close (some p)] ∧
    (handleOrdered w s).outcome = Outcome.returned := by
  unfold handleOrdered
  simp only [hn, if_false, hp, hf, ioCopy_complete w.writeErr f hr hw]
  simp

/-- The events of a random call whose file opens and is copied in full. -/
theorem handleRandom_trace_ok (w : World) (s : Server) (draw : Nat) (p : String) (f : File)
    (hn : s.images.length ≠ 0) (hp : s.images[draw]? = some p)
    (hf : w.openFile p = some f) (hr : f.readErr = none)
    (hw : ∀ j e, w.writeErr = some (j, e) → f.content.length ≤ j) :
    (handleRandom w s draw).trace =
      [Event.log ("Serving " ++ p), Event.openFile p true,
       Event.setHeader "Content-Type" "image/jpeg",
       Event.copy (some p) f.content,
       Event.setHeader "Content-length" (FormatInt f.content.length),
       Event.close (some p)] ∧
    (handleRandom w s draw).outcome = Outcome.returned := by
  unfold handleRandom
  simp only [hn, if_false, hp, hf, ioCopy_complete w.writeErr f hr hw]
  simp

/-- The handle table tells a leaked handle and a handle closed twice from a
handle closed once. -/
theorem handleTable_examples :
    handleTable [Event.openFile "a.jpg" true] [] = some ["a.jpg"] ∧
    handleTable [Event.openFile "a.jpg" true, Event.close (some "a.jpg"),
      Event.close (some "a.jpg")] [] = none ∧
    handleTable [Event.openFile "a.jpg" true, Event.close (some "a.jpg")] [] = some [] := by
  decide

/-! ## Concurrent ordered requests -/

/-- Run one after the other, the two steps of a request are lines 73 and 74 of
the ordered handler. -/
theorem stepThread_sequential (w : World) (s : Server) :
    (stepThread (stepThread s Thread.start).1 (stepThread s Thread.start).2).1 =
      (handleOrdered w s).server ∧
    (stepThread (stepThread s Thread.start).1 (stepThread s Thread.start).2).2.index =
      (handleOrdered w s).idx := by
  unfold handleOrdered
  simp only [stepThread]
  split
  · simp [Thread.index]
  · split <;> simp [Thread.index]

theorem filterMap_set_of_none {α β : Type} (f : α → Option β) (x : α) (b : β) :
    ∀ (l : List α) (t : Nat) (a : α), l[t]? = some a → f a = none → f x = some b →
      ((l.set t x).filterMap f).Perm (b :: l.filterMap f)
  | [], _, _, h, _, _ => by simp at h
  | c :: l, 0, a, h, ha, hx => by
    simp only [List.getElem?_cons_zero, Option.some.injEq] at h
    subst h
    simp [List.filterMap_cons, ha, hx]
  | c :: l, t + 1, a, h, ha, hx => by
    simp only [List.getElem?_cons_succ] at h
    have ih := filterMap_set_of_none f x b l t a h ha hx
    simp only [List.set_cons_succ, List.filterMap_cons]
    cases f c with
    | none => exact ih
    | some d => exact (ih.cons d).trans (List.Perm.swap b d _)

theorem filterMap_set_of_same {α β : Type} (f : α → Option β) (x : α) :
    ∀ (l : List α) (t : Nat) (a : α), l[t]? = some a → f x = f a →
      (l.set t x).filterMap f = l.filterMap f
  | [], _, _, h, _ => by simp at h
  | c :: l, 0, a, h, hx => by
    simp only [List.getElem?_cons_zero, Option.some.injEq] at h
    subst h
    simp [List.filterMap_cons, hx]
  | c :: l, t + 1, a, h, hx => by
    simp only [List.getElem?_cons_succ] at h
    simp only [List.set_cons_succ, List.filterMap_cons,
      filterMap_set_of_same f x l t a h hx]

theorem filterMap_length_of_all_some {α β : Type} (f : α → Option β) :
    ∀ (l : List α), (∀ a ∈ l, (f a).isSome = true) → (l.filterMap f).length = l.length
  | [], _ => rfl
  | c :: l, h => by
    have hc := h c (List.mem_cons_self c l)
    obtain ⟨d, hd⟩ := Option.isSome_iff_exists.mp hc
    simp [List.filterMap_cons, hd,
      filterMap_length_of_all_some f l (fun a ha => h a (List.mem_cons_of_mem c ha))]

theorem filterMap_ticket_replicate_start (n : Nat) :
    (List.replicate n Thread.start).filterMap Thread.ticket = [] := by
  induction n with
  | zero => rfl
  | succ n ih => simp [List.replicate_succ, List.filterMap_cons, Thread.ticket, ih]

/-- Once every request has selected, the indices are the residues of the
counter values obtained. -/
theorem indices_eq_tickets_mod (n : Nat) :
    ∀ (l : List Thread), (∀ th ∈ l, th.index.isSome = true) →
      (∀ v i, Thread.selected v i ∈ l → i = v % n) →
      l.filterMap Thread.index = (l.filterMap Thread.ticket).map (fun v => v % n)
  | [], _, _ => rfl
  | th :: l, h, hs => by
    have ih := indices_eq_tickets_mod n l (fun a ha => h a (List.mem_cons_of_mem th ha))
      (fun v i hv => hs v i (List.mem_cons_of_mem th hv))
    have hth := h th (List.mem_cons_self th l)
    cases th with
    | start => simp [Thread.index] at hth
    | added v => simp [Thread.index] at hth
    | panicked v => simp [Thread.index] at hth
    | selected v i =>
      have := hs v i (List.mem_cons_self _ l)
      simp [List.filterMap_cons, Thread.index, Thread.ticket, ih, this]

theorem SlotInv.step {c : Nat} {imgs : List String} {s : Server} {ths : List Thread}
    (h1 : 1 ≤ imgs.length) (h2 : imgs.length ≤ maxInt) (h3 : c + imgs.length < uint64Mod)
    (inv : SlotInv c imgs (s, ths)) (t : Nat) (th : Thread) (ht : ths[t]? = some th) :
    SlotInv c imgs ((stepThread s th).1, ths.set t (stepThread s th).2) := by
  obtain ⟨himg, hlen, hcnt, hperm, hsel⟩ := inv
  simp only at himg hlen hcnt hperm hsel
  have hmem : th ∈ ths := List.getElem?_mem ht
  cases th with
  | start =>
    have hp := filterMap_set_of_none Thread.ticket
      (Thread.added ((s.imageIdx + 1) % uint64Mod)) ((s.imageIdx + 1) % uint64Mod)
      ths t Thread.start ht rfl rfl
    have hk : (ths.filterMap Thread.ticket).length + 1 ≤ imgs.length := by
      have := hp.length_eq
      have hle := List.length_filterMap_le Thread.ticket
        (ths.set t (Thread.added ((s.imageIdx + 1) % uint64Mod)))
      rw [List.length_set, hlen] at hle
      simp only [List.length_cons] at this
      omega
    have hv : (s.imageIdx + 1) % uint64Mod =
        c + 1 + (ths.filterMap Thread.ticket).length := by
      rw [hcnt]
      rw [Nat.mod_eq_of_lt (by omega)]
      omega
    refine ⟨himg, by simp [stepThread, hlen], ?_, ?_, ?_⟩
    · simp only [stepThread]
      rw [hp.length_eq, hv]
      simp only [List.length_cons]
      omega
    · simp only [stepThread]
      rw [hp.length_eq]
      refine hp.trans ?_
      simp only [List.length_cons]
      rw [List.range'_concat, hv, Nat.one_mul]
      exact ((hperm.cons _).trans (List.perm_append_singleton _ _).symm)
    · intro v i hvi
      simp only [stepThread] at hvi
      rcases List.mem_or_eq_of_mem_set hvi with h | h
      · exact hsel v i h
      · cases h
  | added v =>
    have hn : imgs.length ≠ 0 := by omega
    have hst : stepThread s (Thread.added v) =
        (s, Thread.selected v (v % imgs.length)) := by
      simp only [stepThread, himg, length_mod_uint64 h2, hn, if_false]
    rw [hst]
    have hf := filterMap_set_of_same Thread.ticket (Thread.selected v (v % imgs.length))
      ths t (Thread.added v) ht rfl
    refine ⟨himg, by simp [hlen], ?_, ?_, ?_⟩
    · simp only [hf]; exact hcnt
    · simp only [hf]; exact hperm
    · intro u i hvi
      rcases List.mem_or_eq_of_mem_set hvi with h | h
      · exact hsel u i h
      · cases h; rfl
  | selected v i =>
    have hf := filterMap_set_of_same Thread.ticket (Thread.selected v i)
      ths t (Thread.selected v i) ht rfl
    refine ⟨himg, by simp [stepThread, hlen], ?_, ?_, ?_⟩
    · simp only [stepThread, hf]; exact hcnt
    · simp only [stepThread, hf]; exact hperm
    · intro u j hvi
      simp only [stepThread] at hvi
      rcases List.mem_or_eq_of_mem_set hvi with h | h
      · exact hsel u j h
      · exact hsel u j (h ▸ hmem)
  | panicked v =>
    have hf := filterMap_set_of_same Thread.ticket (Thread.panicked v)
      ths t (Thread.panicked v) ht rfl
    refine ⟨himg, by simp [stepThread, hlen], ?_, ?_, ?_⟩
    · simp only [stepThread, hf]; exact hcnt
    · simp only [stepThread, hf]; exact hperm
    · intro u j hvi
      simp only [stepThread] at hvi
      rcases List.mem_or_eq_of_mem_set hvi with h | h
      · exact hsel u j h
      · cases h

theorem SlotInv.run {c : Nat} {imgs : List String}
    (h1 : 1 ≤ imgs.length) (h2 : imgs.length ≤ maxInt) (h3 : c + imgs.length < uint64Mod) :
    ∀ (sched : List Nat) (st : Server × List Thread),
      SlotInv c imgs st → SlotInv c imgs (runSchedule sched st)
  | [], _, inv => inv
  | t :: sched, (s, ths), inv => by
    unfold runSchedule
    cases ht : ths[t]? with
    | none => exact SlotInv.run h1 h2 h3 sched (s, ths) inv
    | some th => exact SlotInv.run h1 h2 h3 sched _ (inv.step h1 h2 h3 t th ht)

theorem SlotInv.init (s : Server) :
    SlotInv s.imageIdx s.images (s, List.replicate s.images.length Thread.start) := by
  refine ⟨rfl, by simp, ?_, ?_, ?_⟩
  · simp [filterMap_ticket_replicate_start]
  · simp [filterMap_ticket_replicate_start]
  · intro v i h
    have := List.eq_of_mem_replicate h
    cases this

/-! ## The claims -/

/-- C1: for an image list of length `N ≥ 1` and a server whose counter is 0,
the indices selected by the first `N` consecutive calls of the ordered handler
are `N` pairwise distinct indices and every index below `N` is among them. -/
theorem ordered_first_round_each_once (w : World) (s : Server)
    (h0 : s.imageIdx = 0) (h1 : 1 ≤ s.images.length) (h2 : s.images.length ≤ maxInt) :
    ((orderedCalls w s.images.length s).map (fun r => r.idx)).length = s.images.length ∧
    ((orderedCalls w s.images.length s).map (fun r => r.idx)).Nodup ∧
    ∀ i, i < s.images.length →
      some i ∈ (orderedCalls w s.images.length s).map (fun r => r.idx) := by
  have hlt : s.imageIdx + s.images.length < uint64Mod := by
    unfold maxInt at h2
    unfold uint64Mod
    omega
  have hperm : ((orderedCalls w s.images.length s).map (fun r => r.idx)).Perm
      ((List.range s.images.length).map some) := by
    rw [orderedCalls_idx w _ s h1 h2 hlt]
    have := (window_mod_perm (s.imageIdx + 1) s.images.length h1).map some
    simpa [List.map_map, Function.comp_def] using this
  refine ⟨by simp [orderedCalls_length], ?_, ?_⟩
  · exact hperm.nodup_iff.mpr
      ((List.nodup_range _).map (fun a b h => Option.some.inj h))
  · intro i hi
    exact hperm.mem_iff.mpr (List.mem_map.mpr ⟨i, List.mem_range.mpr hi, rfl⟩)

/-- Witness for C1: the listing a.jpg, b.jpg, c.jpg on a fresh server. -/
theorem ordered_first_round_each_once_witness :
    ((orderedCalls ⟨fun _ => none, none⟩ 3
        (MakeServer.WithImages ["a.jpg", "b.jpg", "c.jpg"])).map (fun r => r.idx)).length = 3 ∧
    ((orderedCalls ⟨fun _ => none, none⟩ 3
        (MakeServer.WithImages ["a.jpg", "b.jpg", "c.jpg"])).map (fun r => r.idx)).Nodup ∧
    ∀ i, i < 3 →
      some i ∈ (orderedCalls ⟨fun _ => none, none⟩ 3
        (MakeServer.WithImages ["a.jpg", "b.jpg", "c.jpg"])).map (fun r => r.idx) :=
  ordered_first_round_each_once ⟨fun _ => none, none⟩
    (MakeServer.WithImages ["a.jpg", "b.jpg", "c.jpg"]) rfl (by decide) (by decide)

/-- Counterexample to C2 as stated: on the listing a.jpg, b.jpg, c.jpg a fresh
server opens b.jpg, c.jpg, a.jpg on its first three ordered calls, so call `i`
does not serve `images[i-1]`. -/
theorem ordered_calls_not_in_listing_order :
    (orderedCalls ⟨fun _ => none, none⟩ 3
        (MakeServer.WithImages ["a.jpg", "b.jpg", "c.jpg"])).map
      (fun r => openedPaths r.trace) = [["b.jpg"], ["c.jpg"], ["a.jpg"]] ∧
    ¬ (∀ i, 1 ≤ i → i ≤ 3 →
        ((orderedCalls ⟨fun _ => none, none⟩ 3
            (MakeServer.WithImages ["a.jpg", "b.jpg", "c.jpg"]))[i - 1]?).map
          (fun r => openedPaths r.trace) =
        ((MakeServer.WithImages ["a.jpg", "b.jpg", "c.jpg"]).images[i - 1]?).map
          (fun p => [p])) := by
  refine ⟨by decide, ?_⟩
  intro h
  have h1 := h 1 (by decide) (by decide)
  revert h1
  decide

/-- C2, amended: for an image list of length `N ≥ 1` and a server whose counter
is 0, call number `i` of the ordered handler (`1 ≤ i ≤ N`) selects index
`i mod N` and opens `images[i mod N]`: calls `1 .. N-1` serve the second to the
last listed image and call `N` serves the first listed image. -/
theorem ordered_call_serves_rotated (w : World) (s : Server) (i : Nat)
    (h0 : s.imageIdx = 0) (h1 : 1 ≤ s.images.length) (h2 : s.images.length ≤ maxInt)
    (hi1 : 1 ≤ i) (hi2 : i ≤ s.images.length) :
    ∃ p, s.images[i % s.images.length]? = some p ∧
      ((orderedCalls w s.images.length s)[i - 1]?).map (fun r => r.idx) =
        some (some (i % s.images.length)) ∧
      ((orderedCalls w s.images.length s)[i - 1]?).map (fun r => openedPaths r.trace) =
        some [p] := by
  have hs : s.imageIdx < uint64Mod := by rw [h0]; unfold uint64Mod; positivity
  have hiM : i % uint64Mod = i := by
    apply Nat.mod_eq_of_lt
    unfold maxInt at h2
    unfold uint64Mod
    omega
  have hlt : i % s.images.length < s.images.length := Nat.mod_lt _ h1
  refine ⟨s.images[i % s.images.length], List.getElem?_eq_getElem hlt, ?_, ?_⟩
  · rw [orderedCalls_idx_at w s _ i hs h1 h2 hi1 hi2, h0, Nat.zero_add, hiM]
  · rw [orderedCalls_get w _ s (i - 1) hs (by omega)]
    simp only [Option.map_some']
    congr 1
    have e : i - 1 + 1 = i := by omega
    refine handleOrdered_opened w
      { s with imageIdx := (s.imageIdx + (i - 1)) % uint64Mod } _ h2 ?_
    simp only [Nat.mod_add_mod, h0, Nat.zero_add, e, hiM]
    exact List.getElem?_eq_getElem hlt

/-- Witness for the amended C2: the second call on the listing a.jpg, b.jpg,
c.jpg. -/
theorem ordered_call_serves_rotated_witness :
    ∃ p, (MakeServer.WithImages ["a.jpg", "b.jpg", "c.jpg"]).images[2 % 3]? = some p ∧
      ((orderedCalls ⟨fun _ => none, none⟩ 3
          (MakeServer.WithImages ["a.jpg", "b.jpg", "c.jpg"]))[2 - 1]?).map
        (fun r => r.idx) = some (some (2 % 3)) ∧
      ((orderedCalls ⟨fun _ => none, none⟩ 3
          (MakeServer.WithImages ["a.jpg", "b.jpg", "c.jpg"]))[2 - 1]?).map
        (fun r => openedPaths r.trace) = some [p] :=
  ordered_call_serves_rotated ⟨fun _ => none, none⟩
    (MakeServer.WithImages ["a.jpg", "b.jpg", "c.jpg"]) 2 rfl (by decide) (by decide)
    (by decide) (by decide)

/-- Counterexample to C3 as stated: with three images and the counter at
`2^64 - 2`, call 1 selects index 0 and call 4 selects index 2. -/
theorem ordered_period_breaks_at_wrap :
    ((orderedCalls ⟨fun _ => none, none⟩ 4
        ⟨2 ^ 64 - 2, ["a.jpg", "b.jpg", "c.jpg"], 0⟩)[0]?).map (fun r => r.idx) =
      some (some 0) ∧
    ((orderedCalls ⟨fun _ => none, none⟩ 4
        ⟨2 ^ 64 - 2, ["a.jpg", "b.jpg", "c.jpg"], 0⟩)[3]?).map (fun r => r.idx) =
      some (some 2) := by
  decide

/-- C3, amended: for an image list of length `N ≥ 1` and every counter value
`c < 2^64`, call `m + N` of the ordered handler selects the index that call `m`
selected, provided the counter does not pass `2^64` on the way
(`c + m + N < 2^64`) or `N` divides `2^64`. -/
theorem ordered_index_periodic (w : World) (s : Server) (m : Nat)
    (hs : s.imageIdx < uint64Mod) (h1 : 1 ≤ s.images.length)
    (h2 : s.images.length ≤ maxInt) (hm : 1 ≤ m)
    (hw : s.imageIdx + m + s.images.length < uint64Mod ∨ s.images.length ∣ uint64Mod) :
    ∃ i, i < s.images.length ∧
      ((orderedCalls w (m + s.images.length) s)[m - 1]?).map (fun r => r.idx) =
        some (some i) ∧
      ((orderedCalls w (m + s.images.length) s)[m + s.images.length - 1]?).map
        (fun r => r.idx) = some (some i) := by
  refine ⟨(s.imageIdx + m) % s.images.length, Nat.mod_lt _ h1, ?_, ?_⟩
  · rw [orderedCalls_idx_at w s _ m hs h1 h2 hm (by omega)]
    rcases hw with hw | hw
    · have e : (s.imageIdx + m) % uint64Mod = s.imageIdx + m :=
        Nat.mod_eq_of_lt (by omega)
      rw [e]
    · rw [Nat.mod_mod_of_dvd _ hw]
  · rw [orderedCalls_idx_at w s _ (m + s.images.length) hs h1 h2 (by omega) (by omega)]
    rcases hw with hw | hw
    · have e : (s.imageIdx + (m + s.images.length)) % uint64Mod =
          s.imageIdx + m + s.images.length := by
        rw [← Nat.add_assoc]
        exact Nat.mod_eq_of_lt hw
      rw [e, Nat.add_mod_right]
    · rw [Nat.mod_mod_of_dvd _ hw, ← Nat.add_assoc, Nat.add_mod_right]

/-- Witness for the amended C3: three images, counter 5, calls 2 and 5. -/
theorem ordered_index_periodic_witness :
    ∃ i, i < 3 ∧
      ((orderedCalls ⟨fun _ => none, none⟩ (2 + 3)
          ⟨5, ["a.jpg", "b.jpg", "c.jpg"], 0⟩)[2 - 1]?).map (fun r => r.idx) =
        some (some i) ∧
      ((orderedCalls ⟨fun _ => none, none⟩ (2 + 3)
          ⟨5, ["a.jpg", "b.jpg", "c.jpg"], 0⟩)[2 + 3 - 1]?).map (fun r => r.idx) =
        some (some i) :=
  ordered_index_periodic ⟨fun _ => none, none⟩ ⟨5, ["a.jpg", "b.jpg", "c.jpg"], 0⟩ 2
    (by decide) (by decide) (by decide) (by decide) (Or.inl (by decide))

/-- C4: the random handler leaves the server, so the counter and the image
list, unchanged; hence the indices the ordered handler selects while any
sequence of requests to both endpoints is served are the indices it selects
when only the ordered requests of that sequence are made. -/
theorem random_calls_do_not_move_ordered (w : World) (qs : List Request) (s : Server)
    (draw : Nat) :
    (handleRandom w s draw).server = s ∧
    orderedIndices w qs s =
      (orderedCalls w (countOrdered qs) s).map (fun r => r.idx) := by
  refine ⟨handleRandom_server w s draw, ?_⟩
  induction qs generalizing s with
  | nil => rfl
  | cons q qs ih =>
    cases q with
    | random d =>
      simp only [orderedIndices, countOrdered, handleRandom_server]
      exact ih s
    | ordered =>
      simp only [orderedIndices, countOrdered, orderedCalls, List.map_cons]
      rw [ih]

/-- C5, the code at a failing open: with the one image a.jpg and an `os.Open`
that fails, both handlers call `http.Error` with status 500 and then go on to
set Content-Type, to copy from the nil handle, to set Content-length and to
close the nil handle. -/
theorem open_failure_falls_through :
    (handleOrdered ⟨fun _ => none, none⟩ ⟨0, ["a.jpg"], 0⟩).trace =
      [Event.log "Serving a.jpg", Event.sleep, Event.openFile "a.jpg" false,
       Event.httpError "Failed to open image" 500,
       Event.setHeader "Content-Type" "image/jpeg",
       Event.copy none [],
       Event.log "Error serving a.jpg: invalid argument",
       Event.setHeader "Content-length" "0",
       Event.close none] ∧
    (handleRandom ⟨fun _ => none, none⟩ ⟨0, ["a.jpg"], 0⟩ 0).trace =
      [Event.log "Serving a.jpg", Event.openFile "a.jpg" false,
       Event.httpError "Failed to open image" 500,
       Event.setHeader "Content-Type" "image/jpeg",
       Event.copy none [],
       Event.log "Error serving a.jpg: invalid argument",
       Event.setHeader "Content-length" "0",
       Event.close none] := by
  decide

/-- C6: when the image list is empty, every call of the ordered handler panics
with the integer division by zero at the index selection: no index is
selected and the call produces no event, so no file is opened and nothing is
written to the response. -/
theorem ordered_empty_list_panics (w : World) (s : Server) (k : Nat)
    (h : s.images.length = 0) :
    ∀ r ∈ orderedCalls w k s,
      r.outcome = Outcome.panicked "integer divide by zero" ∧ r.idx = none ∧
      r.trace = [] := by
  induction k generalizing s with
  | zero => intro r hr; simp [orderedCalls] at hr
  | succ k ih =>
    intro r hr
    simp only [orderedCalls, List.mem_cons] at hr
    rcases hr with rfl | hr
    · unfold handleOrdered
      simp [h]
    · exact ih (handleOrdered w s).server (by rw [handleOrdered_images]; exact h) r hr

/-- Witness for C6: three calls on a fresh server without images. -/
theorem ordered_empty_list_panics_witness :
    MakeServer.images.length = 0 ∧
    ∀ r ∈ orderedCalls ⟨fun _ => none, none⟩ 3 MakeServer,
      r.outcome = Outcome.panicked "integer divide by zero" ∧ r.idx = none ∧
      r.trace = [] :=
  ⟨rfl, ordered_empty_list_panics ⟨fun _ => none, none⟩ MakeServer 3 rfl⟩

/-- C7: for an image list of length `N ≥ 1`, the ordered handler, at every
counter value, and the random handler, at every draw `r < N`, select an index
below `N`; the lookup `s.images[idx]` succeeds and the handler returns without
a panic. -/
theorem selected_index_in_range (w : World) (s : Server) (q : Request)
    (h1 : 1 ≤ s.images.length) (h2 : s.images.length ≤ maxInt)
    (hq : ∀ draw, q = Request.random draw → draw < s.images.length) :
    ∃ i, (MakeRouter w s q).idx = some i ∧ i < s.images.length ∧
      (s.images[i]?).isSome = true ∧ (MakeRouter w s q).outcome = Outcome.returned := by
  cases q with
  | random d =>
    have hd : d < s.images.length := hq d rfl
    have hne : s.images.length ≠ 0 := by omega
    refine ⟨d, ?_, hd, by simp [hd], ?_⟩
    · show (handleRandom w s d).idx = some d
      unfold handleRandom
      simp only [hne, if_false, List.getElem?_eq_getElem hd]
    · show (handleRandom w s d).outcome = Outcome.returned
      unfold handleRandom
      simp only [hne, if_false, List.getElem?_eq_getElem hd]
  | ordered =>
    have hlt : (s.imageIdx + 1) % uint64Mod % s.images.length < s.images.length :=
      Nat.mod_lt _ h1
    refine ⟨_, handleOrdered_idx w s h1 h2, hlt, by simp [hlt], ?_⟩
    have hne : s.images.length ≠ 0 := by omega
    show (handleOrdered w s).outcome = Outcome.returned
    unfold handleOrdered
    simp only [length_mod_uint64 h2, hne, if_false, List.getElem?_eq_getElem hlt]

/-- Witness for C7: the random endpoint on three images with the draw 2. -/
theorem selected_index_in_range_witness :
    (∀ draw, Request.random 2 = Request.random draw → draw < 3) ∧
    ∃ i, (MakeRouter ⟨fun _ => none, none⟩ ⟨7, ["a.jpg", "b.jpg", "c.jpg"], 0⟩
        (Request.random 2)).idx = some i ∧ i < 3 ∧
      ((["a.jpg", "b.jpg", "c.jpg"] : List String)[i]?).isSome = true ∧
      (MakeRouter ⟨fun _ => none, none⟩ ⟨7, ["a.jpg", "b.jpg", "c.jpg"], 0⟩
        (Request.random 2)).outcome = Outcome.returned :=
  ⟨fun draw h => by cases h; decide,
   selected_index_in_range ⟨fun _ => none, none⟩ ⟨7, ["a.jpg", "b.jpg", "c.jpg"], 0⟩
    (Request.random 2) (by decide) (by decide) (fun draw h => by cases h; decide)⟩

/-- Counterexample to C8 as stated: the file a.jpg opens and is read without
error, but the connection fails after two bytes; the body of the response is
the first two bytes, not the five bytes of the file. -/
theorem served_body_cut_by_write_failure :
    (MakeRouter ⟨fun _ => some ⟨[1, 2, 3, 4, 5], none⟩, some (2, "broken pipe")⟩
        ⟨0, ["a.jpg"], 0⟩ Request.ordered).idx = some 0 ∧
    (["a.jpg"] : List String)[0]? = some "a.jpg" ∧
    (⟨[1, 2, 3, 4, 5], none⟩ : File).readErr = none ∧
    responseBody (MakeRouter ⟨fun _ => some ⟨[1, 2, 3, 4, 5], none⟩, some (2, "broken pipe")⟩
        ⟨0, ["a.jpg"], 0⟩ Request.ordered).trace = [1, 2] ∧
    responseBody (MakeRouter ⟨fun _ => some ⟨[1, 2, 3, 4, 5], none⟩, some (2, "broken pipe")⟩
        ⟨0, ["a.jpg"], 0⟩ Request.ordered).trace ≠
      (⟨[1, 2, 3, 4, 5], none⟩ : File).content := by
  decide

/-- C8, amended: for an image list of length `N ≥ 1` and a request to either
endpoint (a draw below `N` for the random one), the handler selects an index
`i` with `images[i] = p`, and when `p` opens, is read without error and is
written to the response without error, the handler returns, `p` is the one
file opened, the response body is exactly the bytes of the file, all of them
written by the call of `io.Copy`; Content-Type is set to image/jpeg, and no
other header is set, before that call, and Content-length is set after it, to
the decimal count of the bytes copied. -/
theorem served_file_response (w : World) (s : Server) (q : Request)
    (h1 : 1 ≤ s.images.length) (h2 : s.images.length ≤ maxInt)
    (hq : ∀ draw, q = Request.random draw → draw < s.images.length) :
    ∃ i p, (MakeRouter w s q).idx = some i ∧ s.images[i]? = some p ∧
      ∀ f, w.openFile p = some f → f.readErr = none →
        (∀ j e, w.writeErr = some (j, e) → f.content.length ≤ j) →
        (MakeRouter w s q).outcome = Outcome.returned ∧
        openedPaths (MakeRouter w s q).trace = [p] ∧
        responseBody (MakeRouter w s q).trace = f.content ∧
        headersSet (beforeCopy (MakeRouter w s q).trace) =
          [("Content-Type", "image/jpeg")] ∧
        responseBody (beforeCopy (MakeRouter w s q).trace) = [] ∧
        headersSet (afterCopy (MakeRouter w s q).trace) =
          [("Content-length", FormatInt f.content.length)] ∧
        responseBody (afterCopy (MakeRouter w s q).trace) = [] := by
  have hne : s.images.length ≠ 0 := by omega
  cases q with
  | random d =>
    have hd : d < s.images.length := hq d rfl
    have hp : s.images[d]? = some s.images[d] := List.getElem?_eq_getElem hd
    refine ⟨d, s.images[d], handleRandom_idx w s d h1, hp, ?_⟩
    intro f hf hr hw
    obtain ⟨ht, ho⟩ := handleRandom_trace_ok w s d _ f hne hp hf hr hw
    show (handleRandom w s d).outcome = _ ∧ openedPaths (handleRandom w s d).trace = _ ∧
      responseBody (handleRandom w s d).trace = _ ∧
      headersSet (beforeCopy (handleRandom w s d).trace) = _ ∧
      responseBody (beforeCopy (handleRandom w s d).trace) = _ ∧
      headersSet (afterCopy (handleRandom w s d).trace) = _ ∧
      responseBody (afterCopy (handleRandom w s d).trace) = _
    rw [ht, ho]
    simp [openedPaths, responseBody, headersSet, beforeCopy, afterCopy]
  | ordered =>
    have hlt : (s.imageIdx + 1) % uint64Mod % s.images.length < s.images.length :=
      Nat.mod_lt _ h1
    have hp := List.getElem?_eq_getElem hlt
    refine ⟨_, _, handleOrdered_idx w s h1 h2, hp, ?_⟩
    intro f hf hr hw
    have hn : s.images.length % uint64Mod ≠ 0 := by
      rw [length_mod_uint64 h2]; exact hne
    have hp2 : s.images[(s.imageIdx + 1) % uint64Mod % (s.images.length % uint64Mod)]? =
        some s.images[(s.imageIdx + 1) % uint64Mod % s.images.length] := by
      simp only [length_mod_uint64 h2]; exact hp
    obtain ⟨ht, ho⟩ := handleOrdered_trace_ok w s _ f hn hp2 hf hr hw
    show (handleOrdered w s).outcome = _ ∧ openedPaths (handleOrdered w s).trace = _ ∧
      responseBody (handleOrdered w s).trace = _ ∧
      headersSet (beforeCopy (handleOrdered w s).trace) = _ ∧
      responseBody (beforeCopy (handleOrdered w s).trace) = _ ∧
      headersSet (afterCopy (handleOrdered w s).trace) = _ ∧
      responseBody (afterCopy (handleOrdered w s).trace) = _
    rw [ht, ho]
    simp [openedPaths, responseBody, headersSet, beforeCopy, afterCopy]

/-- Witness for the amended C8: both endpoints on a.jpg, b.jpg, where every
file holds the bytes 255, 216, 255 and the connection does not fail. -/
theorem served_file_response_witness :
    (responseBody (MakeRouter ⟨fun _ => some ⟨[255, 216, 255], none⟩, none⟩
        ⟨0, ["a.jpg", "b.jpg"], 0⟩ Request.ordered).trace = [255, 216, 255] ∧
      headersSet (beforeCopy (MakeRouter ⟨fun _ => some ⟨[255, 216, 255], none⟩, none⟩
        ⟨0, ["a.jpg", "b.jpg"], 0⟩ Request.ordered).trace) =
          [("Content-Type", "image/jpeg")] ∧
      headersSet (afterCopy (MakeRouter ⟨fun _ => some ⟨[255, 216, 255], none⟩, none⟩
        ⟨0, ["a.jpg", "b.jpg"], 0⟩ Request.ordered).trace) =
          [("Content-length", "3")]) ∧
    (responseBody (MakeRouter ⟨fun _ => some ⟨[255, 216, 255], none⟩, none⟩
        ⟨0, ["a.jpg", "b.jpg"], 0⟩ (Request.random 0)).trace = [255, 216, 255] ∧
      headersSet (beforeCopy (MakeRouter ⟨fun _ => some ⟨[255, 216, 255], none⟩, none⟩
        ⟨0, ["a.jpg", "b.jpg"], 0⟩ (Request.random 0)).trace) =
          [("Content-Type", "image/jpeg")] ∧
      headersSet (afterCopy (MakeRouter ⟨fun _ => some ⟨[255, 216, 255], none⟩, none⟩
        ⟨0, ["a.jpg", "b.jpg"], 0⟩ (Request.random 0)).trace) =
          [("Content-length", "3")]) := by
  constructor
  · obtain ⟨_, _, _, _, h⟩ := served_file_response
      ⟨fun _ => some ⟨[255, 216, 255], none⟩, none⟩ ⟨0, ["a.jpg", "b.jpg"], 0⟩
      Request.ordered (by decide) (by decide) (fun _ h => nomatch h)
    have r := h ⟨[255, 216, 255], none⟩ rfl rfl (fun _ _ h => nomatch h)
    exact ⟨r.2.2.1, r.2.2.2.1, r.2.2.2.2.2.1⟩
  · obtain ⟨_, _, _, _, h⟩ := served_file_response
      ⟨fun _ => some ⟨[255, 216, 255], none⟩, none⟩ ⟨0, ["a.jpg", "b.jpg"], 0⟩
      (Request.random 0) (by decide) (by decide) (fun draw h => by cases h; decide)
    have r := h ⟨[255, 216, 255], none⟩ rfl rfl (fun _ _ h => nomatch h)
    exact ⟨r.2.2.1, r.2.2.2.1, r.2.2.2.2.2.1⟩

/-- C9: in both handlers, on every path (open failure, complete copy, failed
copy, panic before the open), each file handle opened successfully during the
request is closed exactly once before the handler returns: run over the
events of the call, the table of open handles never sees a close of a handle
that is not open, and it is empty at the end. -/
theorem opened_handles_closed_once (w : World) (s : Server) (q : Request) :
    handleTable (MakeRouter w s q).trace [] = some [] := by
  cases q with
  | random d =>
    show handleTable (handleRandom w s d).trace [] = some []
    unfold handleRandom
    simp only
    split
    · rfl
    · split
      · rfl
      · rename_i path _
        generalize ioCopy w.writeErr (w.openFile path) = c
        obtain ⟨bytes, n, err⟩ := c
        cases hw : w.openFile path <;> cases err <;> simp [handleTable]
  | ordered =>
    show handleTable (handleOrdered w s).trace [] = some []
    unfold handleOrdered
    simp only
    split
    · rfl
    · split
      · rfl
      · rename_i path _
        generalize ioCopy w.writeErr (w.openFile path) = c
        obtain ⟨bytes, n, err⟩ := c
        cases hw : w.openFile path <;> cases err <;> simp [handleTable]

/-- C10: `N ≥ 1` ordered requests run concurrently, in any interleaving of
their steps, on a server whose counter stays below `2^64`.  At every point the
counter values obtained so far are the consecutive integers that follow the
start value, none skipped and none obtained twice; once all `N` requests hold
a value these are the `N` integers after the start value; once all `N`
requests have selected, the indices selected are the indices below `N`, each
exactly once. -/
theorem concurrent_ordered_slots (s : Server) (sched : List Nat)
    (h1 : 1 ≤ s.images.length) (h2 : s.images.length ≤ maxInt)
    (h3 : s.imageIdx + s.images.length < uint64Mod) :
    ((runSchedule sched (s, List.replicate s.images.length Thread.start)).2.filterMap
        Thread.ticket).Perm
      (List.range' (s.imageIdx + 1)
        ((runSchedule sched (s, List.replicate s.images.length Thread.start)).2.filterMap
          Thread.ticket).length) ∧
    ((∀ th ∈ (runSchedule sched (s, List.replicate s.images.length Thread.start)).2,
        th.ticket.isSome = true) →
      ((runSchedule sched (s, List.replicate s.images.length Thread.start)).2.filterMap
          Thread.ticket).Perm
        (List.range' (s.imageIdx + 1) s.images.length)) ∧
    ((∀ th ∈ (runSchedule sched (s, List.replicate s.images.length Thread.start)).2,
        th.index.isSome = true) →
      ((runSchedule sched (s, List.replicate s.images.length Thread.start)).2.filterMap
          Thread.index).Perm
        (List.range s.images.length)) := by
  have inv := SlotInv.run h1 h2 h3 sched _ (SlotInv.init s)
  have hall : (∀ th ∈ (runSchedule sched
        (s, List.replicate s.images.length Thread.start)).2, th.ticket.isSome = true) →
      ((runSchedule sched (s, List.replicate s.images.length Thread.start)).2.filterMap
          Thread.ticket).Perm
        (List.range' (s.imageIdx + 1) s.images.length) := by
    intro h
    have hl := filterMap_length_of_all_some Thread.ticket _ h
    rw [inv.len] at hl
    have hp := inv.perm
    rw [hl] at hp
    exact hp
  refine ⟨inv.perm, hall, ?_⟩
  intro h
  have ht : ∀ th ∈ (runSchedule sched
      (s, List.replicate s.images.length Thread.start)).2, th.ticket.isSome = true := by
    intro th hth
    have := h th hth
    cases th <;> simp [Thread.index, Thread.ticket] at this ⊢
  rw [indices_eq_tickets_mod s.images.length _ h inv.sel]
  exact ((hall ht).map _).trans (window_mod_perm _ _ h1)

/-- Witness for C10: three requests on three images, interleaved. -/
theorem concurrent_ordered_slots_witness :
    (∀ th ∈ (runSchedule [2, 0, 1, 1, 0, 2]
        (⟨0, ["a.jpg", "b.jpg", "c.jpg"], 0⟩, List.replicate 3 Thread.start)).2,
      th.index.isSome = true) ∧
    ((runSchedule [2, 0, 1, 1, 0, 2]
        (⟨0, ["a.jpg", "b.jpg", "c.jpg"], 0⟩, List.replicate 3 Thread.start)).2.filterMap
      Thread.index).Perm (List.range 3) :=
  ⟨by decide,
   (concurrent_ordered_slots ⟨0, ["a.jpg", "b.jpg", "c.jpg"], 0⟩ [2, 0, 1, 1, 0, 2]
      (by decide) (by decide) (by decide)).2.2 (by decide)⟩

end Fileserver
